import Mathlib

/-!
Verification development for the Long-Term-Memory-API core.

The definitions below are a shallow embedding of the repository source:

* `checkAccess`, `deduct`, `getBalance` embed the canonical `CostGuard`
  class of `src/services/hybridCostGuard.ts` (the first, Stripe-era copy;
  the file also carries a legacy duplicate which the design notes mark as
  dead).  Balances are rationals in minor currency units (cents); the
  Redis balance store, the durable `userBilling` ledger and the stream of
  triggered overage invoices are explicit state (`GuardState`).  A thrown
  `ApiError` is modelled as `Except.error`.
* `processJob` embeds `MemoryWorker.processJob` of `src/server.ts`.
* `traverseGraph` embeds the recursive CTE of
  `GraphRAGService.traverseGraph`; paths are kept as `List String`
  (the SQL joins them with " -> " and splits them back).
* `applyFactsToEntities` / `mergeDescriptions` embed the consolidation
  service.
-/

/-! ## Billing data model (src/types/billing.ts) -/

inductive UserSource where
  | RAPIDAPI
  | DIRECT
deriving DecidableEq, Repr

inductive UserTier where
  | FREE
  | HOBBY
  | PRO
deriving DecidableEq, Repr

/-- UserContext as supplied per request: `{userId, source, tier, balance}`. -/
structure UserContext where
  userId : String
  source : UserSource
  tier : UserTier
  balance : Rat
deriving DecidableEq, Repr

/-- OveragePolicy record from `CostGuard.OVERAGE_POLICY`. -/
structure OveragePolicy where
  enabled : Bool
  maxNegativeBalance : Rat
  triggerInvoice : Bool
deriving DecidableEq, Repr

/-- AccessCheckResult returned by `CostGuard.checkAccess`. -/
structure AccessCheckResult where
  allowed : Bool
  allowBackgroundJobs : Bool
  estimatedCost : Rat
  reason : String
deriving DecidableEq, Repr

/-- ApiError thrown by `CostGuard.checkAccess` on denial (code
`INSUFFICIENT_BALANCE`, HTTP 402).  The `details` fields of the source
are inlined; the formatted dollar message string is elided. -/
structure ApiError where
  code : String
  status : Nat
  currentBalance : Rat
  estimatedCost : Rat
  shortfall : Rat
  tier : UserTier
deriving DecidableEq, Repr

/-! ## Key-value state: Redis balance cache, userBilling table, invoices -/

/-- Association-list lookup, first binding wins (Redis GET / primary key). -/
def lookupA (m : List (String × Rat)) (k : String) : Option Rat :=
  (m.find? (fun p => p.1 == k)).map (fun p => p.2)

/-- Association-list store (Redis SET semantics: bind `k` to `v`). -/
def setA (m : List (String × Rat)) (k : String) (v : Rat) : List (String × Rat) :=
  (k, v) :: m.filter (fun p => !(p.1 == k))

/-- Update an existing binding only (prisma `update where userId`: a missing
row raises, and the caller swallows the error, so a missing key is a no-op). -/
def updA (m : List (String × Rat)) (k : String) (v : Rat) : List (String × Rat) :=
  m.map (fun p => if p.1 == k then (k, v) else p)

/-- Guard state: the Redis balance keys, the durable `userBilling`
`creditsBalance` column, and the invoices sent to the billing provider. -/
structure GuardState where
  redis : List (String × Rat)
  db : List (String × Rat)
  invoices : List (String × Rat)
deriving DecidableEq, Repr

/-! ## CostGuard (src/services/hybridCostGuard.ts, canonical first copy) -/

/-- PRICING.COST_PER_API_CALL: $0.003 expressed in cents. -/
def PRICING_COST_PER_API_CALL : Rat := mkRat 3 10

/-- OVERAGE_POLICY table (lines 37-53): PRO may run down to -$1000.00,
HOBBY and FREE have a hard floor at 0. -/
def OVERAGE_POLICY : UserTier → OveragePolicy
  | UserTier.PRO => { enabled := true, maxNegativeBalance := -100000, triggerInvoice := true }
  | UserTier.HOBBY => { enabled := false, maxNegativeBalance := 0, triggerInvoice := false }
  | UserTier.FREE => { enabled := false, maxNegativeBalance := 0, triggerInvoice := false }

/-- CostGuard.getBalance: Redis first; on a miss, hydrate from the
`userBilling` row (caching it in Redis) or report 0 when no row exists. -/
def getBalance (u : String) (st : GuardState) : Rat × GuardState :=
  match lookupA st.redis u with
  | some b => (b, st)
  | none =>
    match lookupA st.db u with
    | some b => (b, { st with redis := setA st.redis u b })
    | none => (0, st)

/-- CostGuard.checkAccess (lines 63-140).  RapidAPI callers bypass the
balance entirely and are denied background jobs; Direct callers are
checked against their tier floor, a breach throws `INSUFFICIENT_BALANCE`
carrying the exact shortfall and, for PRO, triggers an overage invoice. -/
def checkAccess (u : String) (ctx : UserContext) (estimatedCost : Rat)
    (st : GuardState) : Except ApiError AccessCheckResult × GuardState :=
  if ctx.source = UserSource.RAPIDAPI then
    (Except.ok { allowed := true, allowBackgroundJobs := false,
                 estimatedCost := estimatedCost,
                 reason := "RapidAPI user - billing handled externally" }, st)
  else
    let bs := getBalance u st
    let balance := bs.1
    let st1 := bs.2
    let policy := OVERAGE_POLICY ctx.tier
    let balanceAfter := balance - estimatedCost
    if balanceAfter < policy.maxNegativeBalance then
      let shortfall := |balanceAfter - policy.maxNegativeBalance|
      let st2 :=
        if policy.triggerInvoice && decide (ctx.tier = UserTier.PRO) then
          { st1 with invoices := st1.invoices ++ [(u, shortfall)] }
        else st1
      (Except.error { code := "INSUFFICIENT_BALANCE", status := 402,
                      currentBalance := balance, estimatedCost := estimatedCost,
                      shortfall := shortfall, tier := ctx.tier }, st2)
    else
      (Except.ok { allowed := true, allowBackgroundJobs := true,
                   estimatedCost := estimatedCost,
                   reason := "Sufficient balance" }, st1)

/-- CostGuard.deduct (lines 149-200).  RapidAPI: no-op.  Direct: one atomic
`INCRBY key (-actualCost)` (a missing key counts as 0), a fire-and-forget
ledger sync, and for PRO an overage invoice when the floor is newly breached. -/
def deduct (u : String) (ctx : UserContext) (actualCost : Rat)
    (st : GuardState) : GuardState :=
  if ctx.source = UserSource.RAPIDAPI then st
  else
    let cur := (lookupA st.redis u).getD 0
    let newBalance := cur - actualCost
    let redis1 := setA st.redis u newBalance
    let db1 := updA st.db u newBalance
    let policy := OVERAGE_POLICY ctx.tier
    if decide (newBalance < policy.maxNegativeBalance) && policy.triggerInvoice then
      { redis := redis1, db := db1, invoices := st.invoices ++ [(u, |newBalance|)] }
    else
      { redis := redis1, db := db1, invoices := st.invoices }

/-- Access outcome as a Boolean: a thrown denial means access was not
granted. -/
def resultAllowed (r : Except ApiError AccessCheckResult) : Bool :=
  match r with
  | Except.ok a => a.allowed
  | Except.error _ => false

/-- Sequential composition of `deduct` calls.  Each Direct `deduct`
mutates the balance through the single atomic Redis `INCRBY` above, so any
concurrent schedule of the calls is realized by some sequential order of
these atomic decrements: folding over an arbitrary list of the per-call
costs ranges over every interleaving. -/
def applyDeducts (u : String) (ctx : UserContext) (costs : List Rat)
    (st : GuardState) : GuardState :=
  costs.foldl (fun s c => deduct u ctx c s) st

/-! ## Basic store lemmas -/

theorem lookupA_setA_self (m : List (String × Rat)) (k : String) (v : Rat) :
    lookupA (setA m k v) k = some v := by
  simp [lookupA, setA]

theorem deduct_direct_redis (u : String) (ctx : UserContext) (c b : Rat)
    (st : GuardState) (hsrc : ctx.source = UserSource.DIRECT)
    (hb : lookupA st.redis u = some b) :
    lookupA (deduct u ctx c st).redis u = some (b - c) := by
  unfold deduct
  rw [hsrc]
  simp only [reduceCtorEq, if_false, hb, Option.getD_some]
  split <;> simp [lookupA_setA_self]

/-! ## Claim C1: RapidAPI isolation -/

/-- C1: for every userId, RAPIDAPI-source context (any tier, any stored
balance) and every estimatedCost, `checkAccess` returns
`allowed=true, allowBackgroundJobs=false`, leaving the whole guard state
untouched (the returned value is a constant independent of the stores,
so the balance is neither read nor modified), and `deduct` returns the
state unchanged. -/
theorem rapidapi_isolation (u : String) (ctx : UserContext)
    (estimatedCost actualCost : Rat) (st : GuardState)
    (hsrc : ctx.source = UserSource.RAPIDAPI) :
    checkAccess u ctx estimatedCost st =
      (Except.ok { allowed := true, allowBackgroundJobs := false,
                   estimatedCost := estimatedCost,
                   reason := "RapidAPI user - billing handled externally" }, st) ∧
    deduct u ctx actualCost st = st := by
  constructor
  · unfold checkAccess
    rw [hsrc]
    simp
  · unfold deduct
    rw [hsrc]
    simp

/-- Witness for C1 at a concrete RapidAPI context and state. -/
theorem rapidapi_isolation_witness :
    checkAccess "u" ⟨"u", UserSource.RAPIDAPI, UserTier.HOBBY, 7⟩ 5
        ⟨[("u", 100)], [("u", 100)], []⟩ =
      (Except.ok { allowed := true, allowBackgroundJobs := false,
                   estimatedCost := 5,
                   reason := "RapidAPI user - billing handled externally" },
       ⟨[("u", 100)], [("u", 100)], []⟩) ∧
    deduct "u" ⟨"u", UserSource.RAPIDAPI, UserTier.HOBBY, 7⟩ 9
        ⟨[("u", 100)], [("u", 100)], []⟩ = ⟨[("u", 100)], [("u", 100)], []⟩ :=
  rapidapi_isolation "u" _ 5 9 _ rfl

/-! ## Claim C2: Hobby hard limit, Pro overage window -/

/-- C2: with a stored balance of 100 and estimatedCost 200, a DIRECT
HOBBY check is denied: the thrown `ApiError` has code
`INSUFFICIENT_BALANCE` and reports the exact shortfall 100 =
|balanceAfter - floor| in minor currency units; a DIRECT PRO check on
the same inputs (balanceAfter = -100 ≥ the PRO floor -100000) is granted
with `allowed=true`. -/
theorem hobby_hard_limit_pro_overage (u : String) (st : GuardState)
    (ctxH ctxP : UserContext)
    (hHs : ctxH.source = UserSource.DIRECT) (hHt : ctxH.tier = UserTier.HOBBY)
    (hPs : ctxP.source = UserSource.DIRECT) (hPt : ctxP.tier = UserTier.PRO)
    (hbal : lookupA st.redis u = some 100) :
    (∃ e : ApiError, (checkAccess u ctxH 200 st).1 = Except.error e ∧
        e.code = "INSUFFICIENT_BALANCE" ∧ e.status = 402 ∧
        e.shortfall = 100 ∧
        e.shortfall = |(100 - 200 : Rat) - (OVERAGE_POLICY UserTier.HOBBY).maxNegativeBalance|) ∧
    resultAllowed (checkAccess u ctxH 200 st).1 = false ∧
    (∃ r : AccessCheckResult, (checkAccess u ctxP 200 st).1 = Except.ok r ∧
        r.allowed = true ∧ r.allowBackgroundJobs = true) := by
  have hga : getBalance u st = (100, st) := by
    unfold getBalance
    rw [hbal]
  have habs : |(100 - 200 : Rat) - (OVERAGE_POLICY UserTier.HOBBY).maxNegativeBalance| = 100 := by
    have h1 : (100 - 200 : Rat) - (OVERAGE_POLICY UserTier.HOBBY).maxNegativeBalance = -100 := by
      norm_num [OVERAGE_POLICY]
    rw [h1, abs_neg, abs_of_nonneg]
    norm_num
  have hH : (checkAccess u ctxH 200 st).1 =
      Except.error { code := "INSUFFICIENT_BALANCE", status := 402,
                     currentBalance := 100, estimatedCost := 200,
                     shortfall := |(100 - 200 : Rat) - (OVERAGE_POLICY UserTier.HOBBY).maxNegativeBalance|,
                     tier := UserTier.HOBBY } := by
    unfold checkAccess
    rw [hHs, hHt]
    simp only [hga, reduceCtorEq, if_false]
    norm_num [OVERAGE_POLICY]
  have hP : (checkAccess u ctxP 200 st).1 =
      Except.ok { allowed := true, allowBackgroundJobs := true,
                  estimatedCost := 200, reason := "Sufficient balance" } := by
    unfold checkAccess
    rw [hPs, hPt]
    simp only [hga, reduceCtorEq, if_false]
    norm_num [OVERAGE_POLICY]
  refine ⟨⟨_, hH, rfl, rfl, habs, rfl⟩, ?_, ⟨_, hP, rfl, rfl⟩⟩
  rw [hH]
  rfl

/-- Witness for C2 at a concrete state holding balance 100. -/
theorem hobby_hard_limit_pro_overage_witness :
    (∃ e : ApiError,
        (checkAccess "u" ⟨"u", UserSource.DIRECT, UserTier.HOBBY, 100⟩ 200
            ⟨[("u", 100)], [], []⟩).1 = Except.error e ∧
        e.code = "INSUFFICIENT_BALANCE" ∧ e.status = 402 ∧
        e.shortfall = 100 ∧
        e.shortfall = |(100 - 200 : Rat) - (OVERAGE_POLICY UserTier.HOBBY).maxNegativeBalance|) ∧
    resultAllowed (checkAccess "u" ⟨"u", UserSource.DIRECT, UserTier.HOBBY, 100⟩ 200
        ⟨[("u", 100)], [], []⟩).1 = false ∧
    (∃ r : AccessCheckResult,
        (checkAccess "u" ⟨"u", UserSource.DIRECT, UserTier.PRO, 100⟩ 200
            ⟨[("u", 100)], [], []⟩).1 = Except.ok r ∧
        r.allowed = true ∧ r.allowBackgroundJobs = true) :=
  hobby_hard_limit_pro_overage "u" ⟨[("u", 100)], [], []⟩
    ⟨"u", UserSource.DIRECT, UserTier.HOBBY, 100⟩
    ⟨"u", UserSource.DIRECT, UserTier.PRO, 100⟩
    rfl rfl rfl rfl (by rfl)

/-! ## Claim C9: no lost updates on concurrent deductions -/

/-- C9: every Direct `deduct` mutates the balance through one atomic
Redis decrement (`INCRBY key (-cost)`), never a read-modify-write in
application code, so a concurrent execution of N calls of cost c is some
sequential order of N atomic decrements.  Folding `deduct` over any list
of per-call costs that are all equal to c (every interleaving of the N
identical atomic steps) takes a stored balance B to exactly B - N*c. -/
theorem deduct_no_lost_updates (u : String) (ctx : UserContext) (B c : Rat)
    (ops : List Rat) (st : GuardState)
    (hsrc : ctx.source = UserSource.DIRECT) (htier : ctx.tier = UserTier.HOBBY)
    (hb : lookupA st.redis u = some B)
    (hops : ∀ x ∈ ops, x = c) :
    lookupA (applyDeducts u ctx ops st).redis u = some (B - ops.length * c) := by
  induction ops generalizing st B with
  | nil =>
    simpa [applyDeducts] using hb
  | cons a t ih =>
    have ha : a = c := hops a (by simp)
    have h1 : lookupA (deduct u ctx a st).redis u = some (B - a) :=
      deduct_direct_redis u ctx a B st hsrc hb
    have h2 : lookupA (applyDeducts u ctx t (deduct u ctx a st)).redis u
        = some ((B - a) - (t.length : Rat) * c) := by
      apply ih
      · exact h1
      · intro x hx
        exact hops x (List.mem_cons_of_mem a hx)
    have h3 : applyDeducts u ctx (a :: t) st = applyDeducts u ctx t (deduct u ctx a st) := by
      simp [applyDeducts]
    rw [h3, h2, ha]
    congr 1
    simp only [List.length_cons]
    push_cast
    ring

/-- Witness for C9: two concurrent unit-cost deductions against balance 100. -/
theorem deduct_no_lost_updates_witness :
    lookupA (applyDeducts "u" ⟨"u", UserSource.DIRECT, UserTier.HOBBY, 100⟩
        [1, 1] ⟨[("u", 100)], [("u", 100)], []⟩).redis "u" =
      some (100 - ([(1 : Rat), 1].length : Rat) * 1) :=
  deduct_no_lost_updates "u" ⟨"u", UserSource.DIRECT, UserTier.HOBBY, 100⟩ 100 1
    [1, 1] ⟨[("u", 100)], [("u", 100)], []⟩ rfl rfl (by rfl) (by decide)

/-! ## Graph store rows (prisma/schema.prisma) -/

/-- Memory row. -/
structure MemoryRow where
  id : Nat
  userId : String
  text : String
  compressedText : String
  embedding : List Rat
  importanceScore : Rat
  confidence : Rat
  isConsolidated : Bool
  isDeleted : Bool
  createdAt : Nat
deriving DecidableEq, Repr

/-- Entity row; unique per (userId, name, type).  The prisma field `type`
is rendered `etype`. -/
structure EntityRow where
  id : Nat
  userId : String
  name : String
  etype : String
  description : Option String
  embedding : List Rat
  importance : Rat
  confidence : Rat
  isDeleted : Bool
  createdAt : Nat
  updatedAt : Nat
  lastAccessedAt : Nat
deriving DecidableEq, Repr

/-- Relationship row; unique per (userId, fromEntityId, toEntityId, predicate). -/
structure RelationshipRow where
  id : Nat
  userId : String
  fromEntityId : Nat
  toEntityId : Nat
  predicate : String
  confidence : Rat
  weight : Rat
  isDeleted : Bool
  updatedAt : Nat
deriving DecidableEq, Repr

/-- Graph store state; `nextId` models the id generator
(`gen_random_uuid()` rendered as a counter). -/
structure DbState where
  memories : List MemoryRow
  entities : List EntityRow
  relationships : List RelationshipRow
  nextId : Nat
deriving DecidableEq, Repr

/-! ## Extraction provider boundary (src/services/graphExtractionService.ts) -/

/-- Entity emitted by the Graph Extraction Provider. -/
structure ExtractedEntity where
  name : String
  etype : String
  description : Option String
deriving DecidableEq, Repr

/-- Relationship emitted by the Graph Extraction Provider
(`{from, to, predicate}`). -/
structure ExtractedRelationship where
  fromName : String
  toName : String
  predicate : String
deriving DecidableEq, Repr

/-- Extraction result; `totalTokens` models `usage.total_tokens`. -/
structure ExtractionResult where
  entities : List ExtractedEntity
  relationships : List ExtractedRelationship
  totalTokens : Option Nat
deriving DecidableEq, Repr

/-- Empty result used when extraction is skipped. -/
def emptyExtraction : ExtractionResult :=
  { entities := [], relationships := [], totalTokens := none }

/-! ## MemoryWorker.processJob (src/server.ts lines 95-276) -/

/-- Job payload (`AddMemoryJobData`); `enableGraphExtraction` is an
optional flag defaulting to true. -/
structure JobData where
  userId : String
  text : String
  enableGraphExtraction : Option Bool
  userContext : UserContext
deriving DecidableEq, Repr

/-- CostGuard.calculateEstimatedCost (canonical copy, lines 442-469):
the current pricing model is a fixed fee per API call, so the function
returns `PRICING.COST_PER_API_CALL` and ignores all three arguments
(the token-based formula is commented out in the source). -/
def calculateEstimatedCost (tokenCount : Nat) (hasEmbedding hasGraphExtraction : Bool) : Rat :=
  PRICING_COST_PER_API_CALL

/-- Token estimate: `Math.ceil(text.length / 4)`. -/
def jobEstimatedTokens (jd : JobData) : Nat :=
  (jd.text.length + 3) / 4

/-- Worker line 107: `enableGraphExtraction && userContext.source === DIRECT`
with the flag defaulting to true when absent. -/
def jobWillExtractGraph (jd : JobData) : Bool :=
  jd.enableGraphExtraction.getD true && decide (jd.userContext.source = UserSource.DIRECT)

/-- Estimated cost handed to `checkAccess` by the worker (lines 106-113). -/
def jobEstimatedCost (jd : JobData) : Rat :=
  calculateEstimatedCost (jobEstimatedTokens jd) true (jobWillExtractGraph jd)

/-- Key test for the (userId, name, type) unique constraint. -/
def entityKeyMatches (r : EntityRow) (uid n ty : String) : Bool :=
  r.userId == uid && r.name == n && r.etype == ty

/-- Fields written by the `ON CONFLICT ... DO UPDATE` arm of the entity
upsert: description, embedding, lastAccessedAt, updatedAt. -/
def entityContentUpdate (q : EntityRow) (e : ExtractedEntity) (emb : List Rat)
    (now : Nat) : EntityRow :=
  { q with description := e.description, embedding := emb,
           lastAccessedAt := now, updatedAt := now }

/-- Row built by the INSERT arm of the entity upsert (importance 0.5,
confidence 1.0, timestamps NOW()). -/
def newEntityRow (uid : String) (e : ExtractedEntity) (emb : List Rat)
    (id now : Nat) : EntityRow :=
  { id := id, userId := uid, name := e.name, etype := e.etype,
    description := e.description, embedding := emb,
    importance := mkRat 1 2, confidence := 1, isDeleted := false,
    createdAt := now, updatedAt := now, lastAccessedAt := now }

/-- Entity upsert keyed by (userId, name, type), returning the id of the
inserted or conflicting row (worker lines 187-204). -/
def upsertEntity (db : DbState) (uid : String) (e : ExtractedEntity)
    (emb : List Rat) (now : Nat) : Nat × DbState :=
  match db.entities.find? (fun r => entityKeyMatches r uid e.name e.etype) with
  | some r =>
    (r.id, { db with entities := db.entities.map (fun q =>
        if entityKeyMatches q uid e.name e.etype then entityContentUpdate q e emb now
        else q) })
  | none =>
    (db.nextId,
     { db with
       entities := db.entities ++ [newEntityRow uid e emb db.nextId now],
       nextId := db.nextId + 1 })

/-- Text embedded for an entity: `name (type): description`. -/
def entityText (e : ExtractedEntity) : String :=
  e.name ++ " (" ++ e.etype ++ "): " ++ e.description.getD ""

/-- JS `Map.set` on the name -> entityId map. -/
def mapSet (m : List (String × Nat)) (k : String) (v : Nat) : List (String × Nat) :=
  (k, v) :: m.filter (fun p => !(p.1 == k))

/-- JS `Map.get` on the name -> entityId map. -/
def mapGet (m : List (String × Nat)) (k : String) : Option Nat :=
  (m.find? (fun p => p.1 == k)).map (fun p => p.2)

/-- One iteration of the entity loop: embed the entity text, upsert the
row, record the returned id in `entityMap` under the entity name. -/
def upsertEntityStep (uid : String) (embed : String → List Rat) (now : Nat)
    (acc : List (String × Nat) × DbState) (e : ExtractedEntity) :
    List (String × Nat) × DbState :=
  let r := upsertEntity acc.2 uid e (embed (entityText e)) now
  (mapSet acc.1 e.name r.1, r.2)

/-- Entity loop of the transaction (worker lines 179-207): upsert every
extracted entity and record its id in `entityMap` keyed by name alone. -/
def upsertAllEntities (db : DbState) (uid : String) (es : List ExtractedEntity)
    (embed : String → List Rat) (now : Nat) : List (String × Nat) × DbState :=
  es.foldl (upsertEntityStep uid embed now) ([], db)

/-- Key test for the (userId, fromEntityId, toEntityId, predicate)
unique constraint. -/
def relKeyMatches (r : RelationshipRow) (uid : String) (fid tid : Nat)
    (pred : String) : Bool :=
  r.userId == uid && r.fromEntityId == fid && r.toEntityId == tid && r.predicate == pred

/-- Relationship upsert (worker lines 220-241): create with confidence
1.0 and weight 1.0, or refresh confidence and updatedAt on conflict. -/
def upsertRelationship (db : DbState) (uid : String) (fid tid : Nat)
    (pred : String) (now : Nat) : DbState :=
  if db.relationships.any (fun r => relKeyMatches r uid fid tid pred) then
    { db with relationships := db.relationships.map (fun r =>
        if relKeyMatches r uid fid tid pred then { r with confidence := 1, updatedAt := now }
        else r) }
  else
    { db with
      relationships := db.relationships ++
        [{ id := db.nextId, userId := uid, fromEntityId := fid, toEntityId := tid,
           predicate := pred, confidence := 1, weight := 1, isDeleted := false,
           updatedAt := now }],
      nextId := db.nextId + 1 }

/-- One iteration of the relationship loop: resolve both endpoints
through the job-local `entityMap` only; a missing name skips the
relationship with a warning. -/
def applyRelStep (uid : String) (em : List (String × Nat)) (now : Nat)
    (acc : DbState × List ExtractedRelationship) (r : ExtractedRelationship) :
    DbState × List ExtractedRelationship :=
  match mapGet em r.fromName, mapGet em r.toName with
  | some fid, some tid => (upsertRelationship acc.1 uid fid tid r.predicate now, acc.2 ++ [r])
  | _, _ => acc

/-- Relationship loop of the transaction (worker lines 210-245).  The
second component records the relationships actually applied. -/
def applyRelationships (db : DbState) (uid : String) (em : List (String × Nat))
    (rels : List ExtractedRelationship) (now : Nat) :
    DbState × List ExtractedRelationship :=
  rels.foldl (applyRelStep uid em now) (db, [])

/-- Failure modes of a job: the guard threw `ApiError`, or the explicit
`allowed` check threw. -/
inductive JobFailure where
  | guardError (e : ApiError)
  | accessDenied
deriving DecidableEq, Repr

/-- Observable job result (`{memoryId, cost}` plus the extraction
decision and the relationships the transaction applied). -/
structure JobResult where
  memoryId : Nat
  cost : Rat
  ranExtraction : Bool
  usedExtraction : ExtractionResult
  appliedRels : List ExtractedRelationship
deriving DecidableEq, Repr

/-- Job output: result plus the post-transaction stores. -/
structure JobOutput where
  result : JobResult
  db : DbState
  guard : GuardState
deriving DecidableEq, Repr

/-- Transaction of worker step D (lines 161-248): insert the Memory row,
upsert the extracted entities building the name-keyed `entityMap`, then
apply the relationships through that map.  Returns the final store, the
relationships applied, and the new Memory id. -/
def runTransaction (jd : JobData) (embed : String → List Rat)
    (er : ExtractionResult) (now : Nat) (db : DbState) :
    DbState × List ExtractedRelationship × Nat :=
  let memRow : MemoryRow :=
    { id := db.nextId, userId := jd.userId, text := jd.text,
      compressedText := jd.text.take 500, embedding := embed jd.text,
      importanceScore := mkRat 1 2, confidence := 1,
      isConsolidated := false, isDeleted := false, createdAt := now }
  let db1 : DbState :=
    { db with memories := db.memories ++ [memRow], nextId := db.nextId + 1 }
  let em := upsertAllEntities db1 jd.userId er.entities embed now
  let ar := applyRelationships em.2 jd.userId em.1 er.relationships now
  (ar.1, ar.2, memRow.id)

/-- MemoryWorker.processJob (lines 95-276): estimate cost, check access,
embed, optionally extract, one transactional write, then deduct (a
deduction failure is swallowed, here deduct is total). -/
def processJob (jd : JobData) (embed : String → List Rat)
    (extractor : String → ExtractionResult) (now : Nat)
    (db : DbState) (gst : GuardState) : Except JobFailure JobOutput :=
  match checkAccess jd.userId jd.userContext (jobEstimatedCost jd) gst with
  | (Except.error e, _) => Except.error (JobFailure.guardError e)
  | (Except.ok access, gst1) =>
    if !access.allowed then Except.error JobFailure.accessDenied
    else
      let willExtract := jobWillExtractGraph jd && access.allowBackgroundJobs
      let er := if willExtract then extractor jd.text else emptyExtraction
      let tr := runTransaction jd embed er now db
      let totalTokens := er.totalTokens.getD (jobEstimatedTokens jd) + 100
      let actualCost := calculateEstimatedCost totalTokens true (jobWillExtractGraph jd)
      let gst2 := deduct jd.userId jd.userContext actualCost gst1
      Except.ok { result := { memoryId := tr.2.2, cost := actualCost,
                              ranExtraction := willExtract, usedExtraction := er,
                              appliedRels := tr.2.1 },
                  db := tr.1, guard := gst2 }

/-- Completion indicator: the job resolved rather than threw. -/
def jobCompleted (x : Except JobFailure JobOutput) : Bool :=
  match x with
  | Except.ok _ => true
  | Except.error _ => false

/-- ranExtraction of a completed job; a failed job never reached the
extractor. -/
def jobRanExtraction (x : Except JobFailure JobOutput) : Bool :=
  match x with
  | Except.ok o => o.result.ranExtraction
  | Except.error _ => false

/-- Extraction result used by a completed job; a failed job used none. -/
def jobUsedExtraction (x : Except JobFailure JobOutput) : ExtractionResult :=
  match x with
  | Except.ok o => o.result.usedExtraction
  | Except.error _ => emptyExtraction

/-- Relationships applied by a completed job. -/
def jobAppliedRels (x : Except JobFailure JobOutput) : List ExtractedRelationship :=
  match x with
  | Except.ok o => o.result.appliedRels
  | Except.error _ => []

/-- Relationship table after a job; a failed job threw before the
transaction, leaving the initial table. -/
def jobRelationshipRows (x : Except JobFailure JobOutput) (db0 : DbState) :
    List RelationshipRow :=
  match x with
  | Except.ok o => o.db.relationships
  | Except.error _ => db0.relationships

/-- Background-jobs flag of an access-check outcome. -/
def accessAllowsBackground (r : Except ApiError AccessCheckResult) : Bool :=
  match r with
  | Except.ok a => a.allowBackgroundJobs
  | Except.error _ => false

/-! ## Claim C5: estimated cost versus text length -/

/-- C5 counterexample: the worker estimates tokens from the text length,
but the canonical `calculateEstimatedCost` returns the flat per-call
price and ignores its arguments, so two DIRECT jobs whose texts have
different lengths, and a job with extraction disabled, all get the same
estimated cost. -/
theorem cost_ignores_text_length_cex :
    jobEstimatedCost { userId := "u", text := "abcd", enableGraphExtraction := some true,
                       userContext := { userId := "u", source := UserSource.DIRECT,
                                        tier := UserTier.HOBBY, balance := 0 } } =
      jobEstimatedCost { userId := "u", text := "abcdefghijklmnopqrstuvwxyz0123456789abcd",
                         enableGraphExtraction := some true,
                         userContext := { userId := "u", source := UserSource.DIRECT,
                                          tier := UserTier.HOBBY, balance := 0 } } ∧
    ("abcd" : String).length ≠ ("abcdefghijklmnopqrstuvwxyz0123456789abcd" : String).length ∧
    jobEstimatedCost { userId := "u", text := "abcd", enableGraphExtraction := some true,
                       userContext := { userId := "u", source := UserSource.DIRECT,
                                        tier := UserTier.HOBBY, balance := 0 } } =
      jobEstimatedCost { userId := "u", text := "abcd", enableGraphExtraction := some false,
                         userContext := { userId := "u", source := UserSource.DIRECT,
                                          tier := UserTier.HOBBY, balance := 0 } } :=
  ⟨rfl, by decide, rfl⟩

/-- C5 amended: the estimated cost the ingestion worker passes to
`checkAccess` is the flat per-API-call price (0.3 cents) for every job:
it does not vary with text length or with the graph-extraction toggle.
The worker still computes `estimatedTokens = ceil(text.length / 4)`, but
`calculateEstimatedCost` discards it under the current pricing model. -/
theorem cost_is_flat_per_call :
    (∀ jd : JobData, jobEstimatedCost jd = PRICING_COST_PER_API_CALL) ∧
    (∀ jd jd2 : JobData, jobEstimatedCost jd = jobEstimatedCost jd2) ∧
    (∀ jd : JobData, jobEstimatedTokens jd = (jd.text.length + 3) / 4) :=
  ⟨fun _ => rfl, fun _ _ => rfl, fun _ => rfl⟩

/-! ## Helper lemmas shared by the worker claims -/

theorem checkAccess_rapidapi_eq (u : String) (ctx : UserContext) (c : Rat)
    (st : GuardState) (hsrc : ctx.source = UserSource.RAPIDAPI) :
    checkAccess u ctx c st =
      (Except.ok { allowed := true, allowBackgroundJobs := false,
                   estimatedCost := c,
                   reason := "RapidAPI user - billing handled externally" }, st) := by
  unfold checkAccess
  rw [hsrc]
  simp

theorem getD_true_iff (o : Option Bool) : o.getD true = true ↔ o ≠ some false := by
  cases o with
  | none => simp
  | some b => cases b <;> simp

/-! ## Claim C6: graph-extraction gating in the worker -/

/-- C6: in a completed job, the extractor ran precisely when
`userContext.source = DIRECT`, `enableGraphExtraction` is not `some false`
(absent defaults to true), and the access check granted
`allowBackgroundJobs`; a job that skipped extraction used the empty
result; and a RapidAPI job always completes (skipping is a degrade, not
a failure) with the empty extraction result. -/
theorem extraction_gating (jd : JobData) (embed : String → List Rat)
    (extractor : String → ExtractionResult) (now : Nat) (db : DbState)
    (gst : GuardState) :
    (jobCompleted (processJob jd embed extractor now db gst) = true →
      (jobRanExtraction (processJob jd embed extractor now db gst) = true ↔
        (jd.userContext.source = UserSource.DIRECT ∧
         jd.enableGraphExtraction ≠ some false ∧
         accessAllowsBackground
           (checkAccess jd.userId jd.userContext (jobEstimatedCost jd) gst).1 = true))) ∧
    (jobRanExtraction (processJob jd embed extractor now db gst) = false →
      jobUsedExtraction (processJob jd embed extractor now db gst) = emptyExtraction) ∧
    (jd.userContext.source = UserSource.RAPIDAPI →
      jobCompleted (processJob jd embed extractor now db gst) = true ∧
      jobRanExtraction (processJob jd embed extractor now db gst) = false ∧
      jobUsedExtraction (processJob jd embed extractor now db gst) = emptyExtraction) := by
  rcases h : checkAccess jd.userId jd.userContext (jobEstimatedCost jd) gst with ⟨res, gst1⟩
  cases res with
  | error e =>
    have hpj : processJob jd embed extractor now db gst =
        Except.error (JobFailure.guardError e) := by
      unfold processJob
      rw [h]
    refine ⟨?_, ?_, ?_⟩
    · intro hc
      rw [hpj] at hc
      exact absurd hc (by simp [jobCompleted])
    · intro _
      rw [hpj]
      rfl
    · intro hsrc
      rw [checkAccess_rapidapi_eq jd.userId jd.userContext (jobEstimatedCost jd) gst hsrc] at h
      exact absurd (congrArg Prod.fst h) (by simp)
  | ok a =>
    cases ha : a.allowed with
    | false =>
      have hpj : processJob jd embed extractor now db gst =
          Except.error JobFailure.accessDenied := by
        unfold processJob
        rw [h]
        dsimp only
        rw [ha]
        rfl
      refine ⟨?_, ?_, ?_⟩
      · intro hc
        rw [hpj] at hc
        exact absurd hc (by simp [jobCompleted])
      · intro _
        rw [hpj]
        rfl
      · intro hsrc
        rw [checkAccess_rapidapi_eq jd.userId jd.userContext (jobEstimatedCost jd) gst hsrc] at h
        have ha2 : a = { allowed := true, allowBackgroundJobs := false,
                         estimatedCost := jobEstimatedCost jd,
                         reason := "RapidAPI user - billing handled externally" } := by
          have h2 := congrArg Prod.fst h
          simpa using h2.symm
        rw [ha2] at ha
        exact absurd ha (by simp)
    | true =>
      have hran : jobRanExtraction (processJob jd embed extractor now db gst) =
          (jobWillExtractGraph jd && a.allowBackgroundJobs) := by
        unfold processJob
        rw [h]
        dsimp only
        rw [ha]
        rfl
      have hcomp : jobCompleted (processJob jd embed extractor now db gst) = true := by
        unfold processJob
        rw [h]
        dsimp only
        rw [ha]
        rfl
      have hused : jobUsedExtraction (processJob jd embed extractor now db gst) =
          (if jobWillExtractGraph jd && a.allowBackgroundJobs then extractor jd.text
           else emptyExtraction) := by
        unfold processJob
        rw [h]
        dsimp only
        rw [ha]
        rfl
      refine ⟨?_, ?_, ?_⟩
      · intro _
        rw [hran]
        dsimp only [accessAllowsBackground]
        simp only [jobWillExtractGraph, Bool.and_eq_true, decide_eq_true_eq]
        rw [getD_true_iff]
        tauto
      · intro hf
        rw [hran] at hf
        rw [hused, hf]
        rfl
      · intro hsrc
        rw [checkAccess_rapidapi_eq jd.userId jd.userContext (jobEstimatedCost jd) gst hsrc] at h
        have ha2 : a = { allowed := true, allowBackgroundJobs := false,
                         estimatedCost := jobEstimatedCost jd,
                         reason := "RapidAPI user - billing handled externally" } := by
          have h2 := congrArg Prod.fst h
          simpa using h2.symm
        have hbgf : a.allowBackgroundJobs = false := by rw [ha2]
        refine ⟨hcomp, ?_, ?_⟩
        · rw [hran, hbgf]
          simp
        · rw [hused, hbgf]
          simp

/-- Witness for C6 at a concrete RapidAPI job: the job completes, and
the gating equivalence holds there. -/
theorem extraction_gating_witness :
    jobCompleted (processJob
        { userId := "u", text := "hi", enableGraphExtraction := none,
          userContext := { userId := "u", source := UserSource.RAPIDAPI,
                           tier := UserTier.FREE, balance := 0 } }
        (fun _ => []) (fun _ => emptyExtraction) 0
        { memories := [], entities := [], relationships := [], nextId := 0 }
        { redis := [], db := [], invoices := [] }) = true ∧
    (jobRanExtraction (processJob
        { userId := "u", text := "hi", enableGraphExtraction := none,
          userContext := { userId := "u", source := UserSource.RAPIDAPI,
                           tier := UserTier.FREE, balance := 0 } }
        (fun _ => []) (fun _ => emptyExtraction) 0
        { memories := [], entities := [], relationships := [], nextId := 0 }
        { redis := [], db := [], invoices := [] }) = true ↔
      (({ userId := "u", text := "hi", enableGraphExtraction := none,
          userContext := { userId := "u", source := UserSource.RAPIDAPI,
                           tier := UserTier.FREE, balance := 0 } } : JobData).userContext.source
          = UserSource.DIRECT ∧
       ({ userId := "u", text := "hi", enableGraphExtraction := none,
          userContext := { userId := "u", source := UserSource.RAPIDAPI,
                           tier := UserTier.FREE, balance := 0 } } : JobData).enableGraphExtraction
          ≠ some false ∧
       accessAllowsBackground
         (checkAccess "u"
           { userId := "u", source := UserSource.RAPIDAPI,
             tier := UserTier.FREE, balance := 0 }
           (jobEstimatedCost
             { userId := "u", text := "hi", enableGraphExtraction := none,
               userContext := { userId := "u", source := UserSource.RAPIDAPI,
                                tier := UserTier.FREE, balance := 0 } })
           { redis := [], db := [], invoices := [] }).1 = true)) :=
  ⟨by rfl,
   (extraction_gating
      { userId := "u", text := "hi", enableGraphExtraction := none,
        userContext := { userId := "u", source := UserSource.RAPIDAPI,
                         tier := UserTier.FREE, balance := 0 } }
      (fun _ => []) (fun _ => emptyExtraction) 0
      { memories := [], entities := [], relationships := [], nextId := 0 }
      { redis := [], db := [], invoices := [] }).1 (by rfl)⟩

/-! ## Lemmas about the entityMap and the relationship loop -/

theorem find?_filter_ne (m : List (String × Nat)) (k k2 : String) (hk : k ≠ k2) :
    (m.filter (fun p => !(p.1 == k))).find? (fun p => p.1 == k2)
      = m.find? (fun p => p.1 == k2) := by
  induction m with
  | nil => rfl
  | cons p t ih =>
    by_cases hp : p.1 = k
    · have h1 : (p.1 == k) = true := by simp [hp]
      have h2 : (p.1 == k2) = false := by simp [hp, hk]
      simp [List.filter_cons, h1, List.find?_cons, h2, ih]
    · have h1 : (p.1 == k) = false := by simp [hp]
      by_cases hp2 : p.1 = k2
      · have h2 : (p.1 == k2) = true := by simp [hp2]
        simp [List.filter_cons, h1, List.find?_cons, h2]
      · have h2 : (p.1 == k2) = false := by simp [hp2]
        simp [List.filter_cons, h1, List.find?_cons, h2, ih]

theorem mapGet_mapSet (m : List (String × Nat)) (k : String) (v : Nat) (k2 : String) :
    mapGet (mapSet m k v) k2 = if k == k2 then some v else mapGet m k2 := by
  by_cases hk : k = k2
  · subst hk
    simp [mapGet, mapSet]
  · have h1 : (k == k2) = false := by simp [hk]
    unfold mapGet mapSet
    rw [h1]
    simp only [Bool.false_eq_true, if_false]
    rw [List.find?_cons]
    have h2 : ((k, v).1 == k2) = false := h1
    rw [h2]
    rw [find?_filter_ne m k k2 hk]

theorem upsertAll_mapGet_isSome (uid : String) (embed : String → List Rat) (now : Nat)
    (es : List ExtractedEntity) :
    ∀ (m0 : List (String × Nat)) (db : DbState) (k : String),
    (mapGet (es.foldl (upsertEntityStep uid embed now) (m0, db)).1 k).isSome
      = ((es.map (fun e => e.name)).contains k || (mapGet m0 k).isSome) := by
  induction es with
  | nil =>
    intro m0 db k
    simp
  | cons e t ih =>
    intro m0 db k
    rw [List.foldl_cons]
    have hstep : upsertEntityStep uid embed now (m0, db) e =
        (mapSet m0 e.name (upsertEntity db uid e (embed (entityText e)) now).1,
         (upsertEntity db uid e (embed (entityText e)) now).2) := rfl
    rw [hstep, ih]
    rw [mapGet_mapSet]
    by_cases hk : e.name = k
    · subst hk
      simp [List.contains_cons]
    · have h1 : (e.name == k) = false := by simp [hk]
      have h2 : (k == e.name) = false := by simp [Ne.symm hk]
      simp [h1, h2, List.contains_cons, Ne.symm hk]

theorem applyRels_applied (uid : String) (em : List (String × Nat)) (now : Nat)
    (rels : List ExtractedRelationship) :
    ∀ (db : DbState) (acc : List ExtractedRelationship),
    (rels.foldl (applyRelStep uid em now) (db, acc)).2
      = acc ++ rels.filter
          (fun r => (mapGet em r.fromName).isSome && (mapGet em r.toName).isSome) := by
  induction rels with
  | nil =>
    intro db acc
    simp
  | cons r t ih =>
    intro db acc
    rw [List.foldl_cons, List.filter_cons]
    rcases hf : mapGet em r.fromName with _ | fid
    · have hstep : applyRelStep uid em now (db, acc) r = (db, acc) := by
        unfold applyRelStep
        rw [hf]
      rw [hstep, ih]
      simp [hf]
    · rcases ht : mapGet em r.toName with _ | tid
      · have hstep : applyRelStep uid em now (db, acc) r = (db, acc) := by
          unfold applyRelStep
          rw [hf, ht]
        rw [hstep, ih]
        simp [hf, ht]
      · have hstep : applyRelStep uid em now (db, acc) r =
            (upsertRelationship db uid fid tid r.predicate now, acc ++ [r]) := by
          unfold applyRelStep
          rw [hf, ht]
        rw [hstep, ih]
        simp [hf, ht]

theorem applyRels_db_of_no_match (uid : String) (em : List (String × Nat)) (now : Nat)
    (rels : List ExtractedRelationship) :
    ∀ (db : DbState) (acc : List ExtractedRelationship),
    (∀ r ∈ rels, ((mapGet em r.fromName).isSome && (mapGet em r.toName).isSome) = false) →
    (rels.foldl (applyRelStep uid em now) (db, acc)).1 = db := by
  induction rels with
  | nil =>
    intro db acc _
    rfl
  | cons r t ih =>
    intro db acc hall
    rw [List.foldl_cons]
    have hr := hall r (by simp)
    rcases hf : mapGet em r.fromName with _ | fid
    · have hstep : applyRelStep uid em now (db, acc) r = (db, acc) := by
        unfold applyRelStep
        rw [hf]
      rw [hstep]
      exact ih db acc (fun x hx => hall x (List.mem_cons_of_mem r hx))
    · rcases ht : mapGet em r.toName with _ | tid
      · have hstep : applyRelStep uid em now (db, acc) r = (db, acc) := by
          unfold applyRelStep
          rw [hf, ht]
        rw [hstep]
        exact ih db acc (fun x hx => hall x (List.mem_cons_of_mem r hx))
      · exfalso
        rw [hf, ht] at hr
        simp at hr

theorem upsertEntity_rels (db : DbState) (uid : String) (e : ExtractedEntity)
    (emb : List Rat) (now : Nat) :
    (upsertEntity db uid e emb now).2.relationships = db.relationships := by
  unfold upsertEntity
  rcases db.entities.find? (fun r => entityKeyMatches r uid e.name e.etype) with _ | r <;> rfl

theorem upsertAll_rels (uid : String) (embed : String → List Rat) (now : Nat)
    (es : List ExtractedEntity) :
    ∀ (m0 : List (String × Nat)) (db : DbState),
    (es.foldl (upsertEntityStep uid embed now) (m0, db)).2.relationships
      = db.relationships := by
  induction es with
  | nil =>
    intro m0 db
    rfl
  | cons e t ih =>
    intro m0 db
    rw [List.foldl_cons]
    have hstep : upsertEntityStep uid embed now (m0, db) e =
        (mapSet m0 e.name (upsertEntity db uid e (embed (entityText e)) now).1,
         (upsertEntity db uid e (embed (entityText e)) now).2) := rfl
    rw [hstep, ih]
    exact upsertEntity_rels db uid e (embed (entityText e)) now

/-! ## Transaction-level lemmas -/

theorem runTransaction_applied (jd : JobData) (embed : String → List Rat)
    (er : ExtractionResult) (now : Nat) (db : DbState) :
    (runTransaction jd embed er now db).2.1
      = er.relationships.filter (fun r =>
          (er.entities.map (fun e => e.name)).contains r.fromName &&
          (er.entities.map (fun e => e.name)).contains r.toName) := by
  unfold runTransaction
  dsimp only
  unfold applyRelationships
  rw [applyRels_applied, List.nil_append]
  apply List.filter_congr
  intro r _
  unfold upsertAllEntities
  rw [upsertAll_mapGet_isSome, upsertAll_mapGet_isSome]
  simp [mapGet]

theorem runTransaction_rels_unchanged (jd : JobData) (embed : String → List Rat)
    (er : ExtractionResult) (now : Nat) (db : DbState)
    (hnil : (runTransaction jd embed er now db).2.1 = []) :
    (runTransaction jd embed er now db).1.relationships = db.relationships := by
  unfold runTransaction at hnil ⊢
  dsimp only at hnil ⊢
  unfold applyRelationships at hnil ⊢
  rw [applyRels_applied, List.nil_append] at hnil
  have hall := List.filter_eq_nil_iff.mp hnil
  rw [applyRels_db_of_no_match _ _ _ _ _ _ (fun r hr => by
    have hx := hall r hr
    simpa using hx)]
  unfold upsertAllEntities
  rw [upsertAll_rels]

/-! ## Claim C10: relationship endpoints resolve only within the job -/

/-- C10: for every initial store (in particular one already holding an
Entity row carrying the endpoint name of the relationship), the relationships a
job applies are exactly those whose `from` and `to` names are both among
the entity names extracted in the same job — the lookup goes through the
job-local name-keyed `entityMap`, never the Entity table — and if no
relationship passed that test the Relationship table is left untouched,
even when a matching pre-existing Entity row exists. -/
theorem relationships_resolved_job_locally (jd : JobData)
    (embed : String → List Rat) (extractor : String → ExtractionResult)
    (now : Nat) (db : DbState) (gst : GuardState) :
    jobAppliedRels (processJob jd embed extractor now db gst) =
      (jobUsedExtraction (processJob jd embed extractor now db gst)).relationships.filter
        (fun r =>
          ((jobUsedExtraction (processJob jd embed extractor now db gst)).entities.map
              (fun e => e.name)).contains r.fromName &&
          ((jobUsedExtraction (processJob jd embed extractor now db gst)).entities.map
              (fun e => e.name)).contains r.toName) ∧
    (jobAppliedRels (processJob jd embed extractor now db gst) = [] →
      jobRelationshipRows (processJob jd embed extractor now db gst) db
        = db.relationships) := by
  rcases h : checkAccess jd.userId jd.userContext (jobEstimatedCost jd) gst with ⟨res, gst1⟩
  cases res with
  | error e =>
    have hpj : processJob jd embed extractor now db gst =
        Except.error (JobFailure.guardError e) := by
      unfold processJob
      rw [h]
    rw [hpj]
    exact ⟨rfl, fun _ => rfl⟩
  | ok a =>
    cases ha : a.allowed with
    | false =>
      have hpj : processJob jd embed extractor now db gst =
          Except.error JobFailure.accessDenied := by
        unfold processJob
        rw [h]
        dsimp only
        rw [ha]
        rfl
      rw [hpj]
      exact ⟨rfl, fun _ => rfl⟩
    | true =>
      have happ : jobAppliedRels (processJob jd embed extractor now db gst) =
          (runTransaction jd embed
            (if jobWillExtractGraph jd && a.allowBackgroundJobs then extractor jd.text
             else emptyExtraction) now db).2.1 := by
        unfold processJob
        rw [h]
        dsimp only
        rw [ha]
        rfl
      have hused : jobUsedExtraction (processJob jd embed extractor now db gst) =
          (if jobWillExtractGraph jd && a.allowBackgroundJobs then extractor jd.text
           else emptyExtraction) := by
        unfold processJob
        rw [h]
        dsimp only
        rw [ha]
        rfl
      have hrows : jobRelationshipRows (processJob jd embed extractor now db gst) db =
          (runTransaction jd embed
            (if jobWillExtractGraph jd && a.allowBackgroundJobs then extractor jd.text
             else emptyExtraction) now db).1.relationships := by
        unfold processJob
        rw [h]
        dsimp only
        rw [ha]
        rfl
      constructor
      · rw [happ, hused, runTransaction_applied]
      · intro hnil
        rw [happ] at hnil
        rw [hrows]
        exact runTransaction_rels_unchanged _ _ _ _ _ hnil

/-- Witness for C10 at a concrete RapidAPI job over a store already
holding an Entity row named "X": no relationship is applied and the
Relationship table is unchanged. -/
theorem relationships_resolved_job_locally_witness :
    jobAppliedRels (processJob
        { userId := "u", text := "hi", enableGraphExtraction := none,
          userContext := { userId := "u", source := UserSource.RAPIDAPI,
                           tier := UserTier.FREE, balance := 0 } }
        (fun _ => []) (fun _ => emptyExtraction) 0
        { memories := [],
          entities := [{ id := 7, userId := "u", name := "X", etype := "Person",
                         description := none, embedding := [], importance := 1,
                         confidence := 1, isDeleted := false, createdAt := 0,
                         updatedAt := 0, lastAccessedAt := 0 }],
          relationships := [], nextId := 8 }
        { redis := [], db := [], invoices := [] }) = [] ∧
    jobRelationshipRows (processJob
        { userId := "u", text := "hi", enableGraphExtraction := none,
          userContext := { userId := "u", source := UserSource.RAPIDAPI,
                           tier := UserTier.FREE, balance := 0 } }
        (fun _ => []) (fun _ => emptyExtraction) 0
        { memories := [],
          entities := [{ id := 7, userId := "u", name := "X", etype := "Person",
                         description := none, embedding := [], importance := 1,
                         confidence := 1, isDeleted := false, createdAt := 0,
                         updatedAt := 0, lastAccessedAt := 0 }],
          relationships := [], nextId := 8 }
        { redis := [], db := [], invoices := [] })
      { memories := [],
        entities := [{ id := 7, userId := "u", name := "X", etype := "Person",
                       description := none, embedding := [], importance := 1,
                       confidence := 1, isDeleted := false, createdAt := 0,
                       updatedAt := 0, lastAccessedAt := 0 }],
        relationships := [], nextId := 8 }
      = ({ memories := [],
           entities := [{ id := 7, userId := "u", name := "X", etype := "Person",
                          description := none, embedding := [], importance := 1,
                          confidence := 1, isDeleted := false, createdAt := 0,
                          updatedAt := 0, lastAccessedAt := 0 }],
           relationships := [], nextId := 8 } : DbState).relationships :=
  ⟨by rfl,
   (relationships_resolved_job_locally
      { userId := "u", text := "hi", enableGraphExtraction := none,
        userContext := { userId := "u", source := UserSource.RAPIDAPI,
                         tier := UserTier.FREE, balance := 0 } }
      (fun _ => []) (fun _ => emptyExtraction) 0
      { memories := [],
        entities := [{ id := 7, userId := "u", name := "X", etype := "Person",
                       description := none, embedding := [], importance := 1,
                       confidence := 1, isDeleted := false, createdAt := 0,
                       updatedAt := 0, lastAccessedAt := 0 }],
        relationships := [], nextId := 8 }
      { redis := [], db := [], invoices := [] }).2 (by rfl)⟩

/-! ## Entity key uniqueness (the (userId, name, type) unique constraint) -/

/-- Two rows collide on the (userId, name, type) dedup key. -/
def entityKeyClash (a b : EntityRow) : Prop :=
  a.userId = b.userId ∧ a.name = b.name ∧ a.etype = b.etype

/-- The store-enforced invariant: no two Entity rows share the dedup key. -/
def entitiesKeyUnique (rows : List EntityRow) : Prop :=
  rows.Pairwise (fun a b => ¬ entityKeyClash a b)

/-- Number of rows holding a given dedup key. -/
def keyCount (rows : List EntityRow) (uid n ty : String) : Nat :=
  rows.countP (fun r => entityKeyMatches r uid n ty)

theorem entityContentUpdate_key (q : EntityRow) (e : ExtractedEntity)
    (emb : List Rat) (now : Nat) (uid n ty : String) :
    entityKeyMatches (entityContentUpdate q e emb now) uid n ty
      = entityKeyMatches q uid n ty := rfl

theorem newEntityRow_matches (uid : String) (e : ExtractedEntity)
    (emb : List Rat) (id now : Nat) :
    entityKeyMatches (newEntityRow uid e emb id now) uid e.name e.etype = true := by
  simp [entityKeyMatches, newEntityRow]

theorem clash_of_matches (a b : EntityRow) (uid n ty : String)
    (ha : entityKeyMatches a uid n ty = true)
    (hb : entityKeyMatches b uid n ty = true) : entityKeyClash a b := by
  unfold entityKeyMatches at ha hb
  simp only [Bool.and_eq_true, beq_iff_eq] at ha hb
  obtain ⟨⟨ha1, ha2⟩, ha3⟩ := ha
  obtain ⟨⟨hb1, hb2⟩, hb3⟩ := hb
  exact ⟨ha1.trans hb1.symm, ha2.trans hb2.symm, ha3.trans hb3.symm⟩

theorem iteUpdate_key_fields (uid n ty : String) (e : ExtractedEntity)
    (emb : List Rat) (now : Nat) (q : EntityRow) :
    (if entityKeyMatches q uid n ty then entityContentUpdate q e emb now else q).userId
        = q.userId ∧
    (if entityKeyMatches q uid n ty then entityContentUpdate q e emb now else q).name
        = q.name ∧
    (if entityKeyMatches q uid n ty then entityContentUpdate q e emb now else q).etype
        = q.etype := by
  by_cases hq : entityKeyMatches q uid n ty = true
  · rw [if_pos hq]
    exact ⟨rfl, rfl, rfl⟩
  · rw [if_neg (by simp [hq])]
    exact ⟨rfl, rfl, rfl⟩

theorem find?_map_ite {α : Type} (p : α → Bool) (g : α → α)
    (hg : ∀ x, p (g x) = p x) :
    ∀ l : List α, (l.map (fun x => if p x then g x else x)).find? p
      = (l.find? p).map g := by
  intro l
  induction l with
  | nil => rfl
  | cons a t ih =>
    by_cases hpa : p a = true
    · have h1 : (if p a then g a else a) = g a := by rw [if_pos hpa]
      rw [List.map_cons, h1, List.find?_cons_of_pos _ (by rw [hg]; exact hpa),
          List.find?_cons_of_pos _ hpa]
      rfl
    · have hpa2 : p a = false := by simpa using hpa
      have h1 : (if p a then g a else a) = a := by rw [if_neg (by simp [hpa2])]
      rw [List.map_cons, h1, List.find?_cons_of_neg _ (by simp [hpa2]),
          List.find?_cons_of_neg _ (by simp [hpa2]), ih]

theorem keyCount_map_ite (rows : List EntityRow) (uid n ty : String)
    (e : ExtractedEntity) (emb : List Rat) (now : Nat) :
    keyCount (rows.map (fun q =>
        if entityKeyMatches q uid n ty then entityContentUpdate q e emb now else q))
        uid n ty
      = keyCount rows uid n ty := by
  unfold keyCount
  rw [List.countP_map]
  apply List.countP_congr
  intro q _
  show entityKeyMatches
      (if entityKeyMatches q uid n ty then entityContentUpdate q e emb now else q)
      uid n ty = true ↔ entityKeyMatches q uid n ty = true
  by_cases hq : entityKeyMatches q uid n ty = true
  · rw [if_pos hq, entityContentUpdate_key]
  · rw [if_neg (by simp [hq])]

theorem keyUnique_map_ite (rows : List EntityRow) (uid n ty : String)
    (e : ExtractedEntity) (emb : List Rat) (now : Nat)
    (h : entitiesKeyUnique rows) :
    entitiesKeyUnique (rows.map (fun q =>
        if entityKeyMatches q uid n ty then entityContentUpdate q e emb now else q)) := by
  apply List.Pairwise.map _ _ h
  intro a b hab hc
  apply hab
  obtain ⟨h1a, h2a, h3a⟩ := iteUpdate_key_fields uid n ty e emb now a
  obtain ⟨h1b, h2b, h3b⟩ := iteUpdate_key_fields uid n ty e emb now b
  unfold entityKeyClash at hc ⊢
  rw [h1a, h2a, h3a, h1b, h2b, h3b] at hc
  exact hc

theorem keyCount_le_one (rows : List EntityRow) (h : entitiesKeyUnique rows)
    (uid n ty : String) : keyCount rows uid n ty ≤ 1 := by
  induction rows with
  | nil => simp [keyCount]
  | cons a t ih =>
    obtain ⟨ha, ht⟩ := List.pairwise_cons.mp h
    by_cases hpa : entityKeyMatches a uid n ty = true
    · have ht0 : keyCount t uid n ty = 0 := by
        unfold keyCount
        rw [List.countP_eq_zero]
        intro b hb hpb
        exact ha b hb (clash_of_matches a b uid n ty hpa hpb)
      unfold keyCount at ht0 ⊢
      simp [List.countP_cons, hpa, ht0]
    · have h2 : keyCount (a :: t) uid n ty = keyCount t uid n ty := by
        unfold keyCount
        simp [List.countP_cons, hpa]
      rw [h2]
      exact ih ht

theorem keyCount_pos_of_find? (rows : List EntityRow) (uid n ty : String)
    (r : EntityRow)
    (h : rows.find? (fun q => entityKeyMatches q uid n ty) = some r) :
    1 ≤ keyCount rows uid n ty := by
  unfold keyCount
  exact List.countP_pos_iff.mpr
    ⟨r, List.mem_of_find?_eq_some h, by simpa using List.find?_some h⟩

theorem keyCount_zero_of_find?_none (rows : List EntityRow) (uid n ty : String)
    (h : rows.find? (fun q => entityKeyMatches q uid n ty) = none) :
    keyCount rows uid n ty = 0 := by
  unfold keyCount
  rw [List.countP_eq_zero]
  exact fun b hb => List.find?_eq_none.mp h b hb

theorem keyUnique_append_new (rows : List EntityRow) (uid : String)
    (e : ExtractedEntity) (emb : List Rat) (id now : Nat)
    (h : entitiesKeyUnique rows)
    (hnone : rows.find? (fun q => entityKeyMatches q uid e.name e.etype) = none) :
    entitiesKeyUnique (rows ++ [newEntityRow uid e emb id now]) := by
  unfold entitiesKeyUnique
  rw [List.pairwise_append]
  refine ⟨h, by simp, ?_⟩
  intro a hamem b hbmem hc
  have hb : b = newEntityRow uid e emb id now := by simpa using hbmem
  have hnota := List.find?_eq_none.mp hnone a hamem
  apply hnota
  subst hb
  obtain ⟨h1, h2, h3⟩ := hc
  show entityKeyMatches a uid e.name e.etype = true
  unfold entityKeyMatches
  simp only [Bool.and_eq_true, beq_iff_eq]
  exact ⟨⟨h1, h2⟩, h3⟩

theorem upsertEntity_find? (db : DbState) (uid : String) (e : ExtractedEntity)
    (emb : List Rat) (now : Nat) :
    ∃ row : EntityRow,
      (upsertEntity db uid e emb now).2.entities.find?
        (fun q => entityKeyMatches q uid e.name e.etype) = some row ∧
      (upsertEntity db uid e emb now).1 = row.id := by
  unfold upsertEntity
  rcases hf : db.entities.find? (fun r => entityKeyMatches r uid e.name e.etype) with _ | r
  · dsimp only
    refine ⟨newEntityRow uid e emb db.nextId now, ?_, rfl⟩
    rw [List.find?_append, hf]
    simp [newEntityRow_matches]
  · dsimp only
    refine ⟨entityContentUpdate r e emb now, ?_, rfl⟩
    rw [find?_map_ite _ _ (fun x => entityContentUpdate_key x e emb now uid e.name e.etype),
        hf]
    rfl

/-! ## Claim C4: idempotent entity upsert -/

/-- C4: upserting the same (userId, name, type) entity twice never
produces two Entity rows.  Starting from any store satisfying the unique
(userId, name, type) invariant, after the second upsert the invariant
still holds, exactly one row carries the key, the second call returns
the id of the first row, and the surviving row is the first row with
only description, embedding, lastAccessedAt and updatedAt rewritten
(id, createdAt, importance, confidence untouched by construction of
`entityContentUpdate`). -/
theorem entity_upsert_idempotent (db : DbState) (uid : String)
    (e e2 : ExtractedEntity) (emb emb2 : List Rat) (n1 n2 : Nat)
    (hname : e2.name = e.name) (hty : e2.etype = e.etype)
    (hinv : entitiesKeyUnique db.entities) :
    entitiesKeyUnique
      (upsertEntity (upsertEntity db uid e emb n1).2 uid e2 emb2 n2).2.entities ∧
    keyCount (upsertEntity (upsertEntity db uid e emb n1).2 uid e2 emb2 n2).2.entities
        uid e.name e.etype = 1 ∧
    (upsertEntity (upsertEntity db uid e emb n1).2 uid e2 emb2 n2).1
      = (upsertEntity db uid e emb n1).1 ∧
    ∃ row1 : EntityRow,
      (upsertEntity db uid e emb n1).2.entities.find?
          (fun q => entityKeyMatches q uid e.name e.etype) = some row1 ∧
      (upsertEntity (upsertEntity db uid e emb n1).2 uid e2 emb2 n2).2.entities.find?
          (fun q => entityKeyMatches q uid e.name e.etype)
        = some (entityContentUpdate row1 e2 emb2 n2) := by
  obtain ⟨row1, hA1, hid⟩ := upsertEntity_find? db uid e emb n1
  have hAinv : entitiesKeyUnique (upsertEntity db uid e emb n1).2.entities := by
    unfold upsertEntity
    rcases hf : db.entities.find? (fun r => entityKeyMatches r uid e.name e.etype) with _ | r
    · dsimp only
      exact keyUnique_append_new db.entities uid e emb db.nextId n1 hinv hf
    · dsimp only
      exact keyUnique_map_ite db.entities uid e.name e.etype e emb n1 hinv
  have hAcount : keyCount (upsertEntity db uid e emb n1).2.entities uid e.name e.etype
      = 1 := by
    have hle := keyCount_le_one _ hAinv uid e.name e.etype
    have hge := keyCount_pos_of_find? _ uid e.name e.etype row1 hA1
    omega
  have hpred : (fun q => entityKeyMatches q uid e2.name e2.etype)
      = (fun q => entityKeyMatches q uid e.name e.etype) := by
    rw [hname, hty]
  have hBgen : ∀ A : DbState,
      A.entities.find? (fun q => entityKeyMatches q uid e.name e.etype) = some row1 →
      upsertEntity A uid e2 emb2 n2
        = (row1.id, { A with entities := A.entities.map (fun q =>
            if entityKeyMatches q uid e.name e.etype then entityContentUpdate q e2 emb2 n2
            else q) }) := by
    intro A hA
    unfold upsertEntity
    rw [hpred, hA]
    dsimp only
    rw [hname, hty]
  have hB := hBgen (upsertEntity db uid e emb n1).2 hA1
  refine ⟨?_, ?_, ?_, row1, hA1, ?_⟩
  · rw [hB]
    exact keyUnique_map_ite _ uid e.name e.etype e2 emb2 n2 hAinv
  · rw [hB]
    show keyCount (List.map _ _) uid e.name e.etype = 1
    rw [keyCount_map_ite]
    exact hAcount
  · rw [hB]
    exact hid.symm
  · rw [hB]
    show (List.map _ _).find? _ = _
    rw [find?_map_ite _ _ (fun x => entityContentUpdate_key x e2 emb2 n2 uid e.name e.etype),
        hA1]
    rfl

/-- Witness for C4: ingesting (John, Person) twice into an empty store
leaves exactly one row with that key. -/
theorem entity_upsert_idempotent_witness :
    entitiesKeyUnique ([] : List EntityRow) ∧
    keyCount (upsertEntity
        (upsertEntity { memories := [], entities := [], relationships := [], nextId := 0 }
          "u" { name := "John", etype := "Person", description := some "CEO" } [] 1).2
        "u" { name := "John", etype := "Person", description := some "Founder" } [] 2).2.entities
      "u" "John" "Person" = 1 :=
  ⟨List.Pairwise.nil,
   (entity_upsert_idempotent
      { memories := [], entities := [], relationships := [], nextId := 0 } "u"
      { name := "John", etype := "Person", description := some "CEO" }
      { name := "John", etype := "Person", description := some "Founder" }
      [] [] 1 2 rfl rfl List.Pairwise.nil).2.1⟩

/-! ## GraphRAG traversal (GraphRAGService.traverseGraph, recursive CTE) -/

/-- Entity columns read by the traversal CTE. -/
structure TEntity where
  id : Nat
  userId : String
  name : String
  etype : String
  isDeleted : Bool
deriving DecidableEq, Repr

/-- Relationship columns read by the traversal CTE. -/
structure TRel where
  userId : String
  fromEntityId : Nat
  toEntityId : Nat
  predicate : String
  isDeleted : Bool
deriving DecidableEq, Repr

/-- Graph store contents visible to the traversal. -/
structure TGraph where
  entities : List TEntity
  relationships : List TRel
deriving DecidableEq, Repr

/-- One row of the `entity_graph` CTE.  The SQL stores `path` and
`relationshipChain` as strings joined by " -> "; they are kept as lists
(splitting the string on the arrow separator recovers this list). -/
structure TraversalRow where
  entityId : Nat
  entityName : String
  entityType : String
  depth : Nat
  path : List String
  relationshipChain : List String
deriving DecidableEq, Repr

/-- Base case of the CTE: anchor entities at depth 0, path = own name,
no relationship chain. -/
def anchorRows (g : TGraph) (u : String) (anchors : List Nat) : List TraversalRow :=
  (g.entities.filter (fun e => anchors.contains e.id && e.userId == u && !e.isDeleted)).map
    (fun e => { entityId := e.id, entityName := e.name, entityType := e.etype,
                depth := 0, path := [e.name], relationshipChain := [] })

/-- Recursive case of the CTE: while `depth < maxDepth`, follow outgoing
non-deleted relationships of the same tenant to non-deleted target
entities whose name is not already on the path (the cycle guard keys on
the NAME, not the id). -/
def expandRow (g : TGraph) (u : String) (maxDepth : Nat) (row : TraversalRow) :
    List TraversalRow :=
  if row.depth < maxDepth then
    (g.relationships.filter (fun r =>
        r.fromEntityId == row.entityId && r.userId == u && !r.isDeleted)).flatMap
      (fun r =>
        (g.entities.filter (fun t =>
            t.id == r.toEntityId && !t.isDeleted && !(row.path.contains t.name))).map
          (fun t => { entityId := t.id, entityName := t.name, entityType := t.etype,
                      depth := row.depth + 1, path := row.path ++ [t.name],
                      relationshipChain := row.relationshipChain ++ [r.predicate] }))
  else []

/-- Rows produced by the k-th iteration of the CTE. -/
def levelRows (g : TGraph) (u : String) (anchors : List Nat) (maxDepth : Nat) :
    Nat → List TraversalRow
  | 0 => anchorRows g u anchors
  | k + 1 => (levelRows g u anchors maxDepth k).flatMap (expandRow g u maxDepth)

/-- Every row the CTE can derive.  Rows of iteration k sit at depth k and
expansion stops at `maxDepth`, so iterations beyond `maxDepth` are empty
and the union over `0..maxDepth` is exhaustive. -/
def allRows (g : TGraph) (u : String) (anchors : List Nat) (maxDepth : Nat) :
    List TraversalRow :=
  (List.range (maxDepth + 1)).flatMap (levelRows g u anchors maxDepth)

/-- Codepoints of a string, for the ORDER BY text comparison. -/
def strCodes (s : String) : List Nat :=
  s.data.map Char.toNat

/-- Lexicographic comparison of codepoint lists. -/
def lexLeCodes : List Nat → List Nat → Bool
  | [], _ => true
  | _ :: _, [] => false
  | a :: as, b :: bs => decide (a < b) || (a == b && lexLeCodes as bs)

/-- ORDER BY depth ASC, "entityName" ASC. -/
def rowLe (a b : TraversalRow) : Bool :=
  decide (a.depth < b.depth) ||
    (a.depth == b.depth && lexLeCodes (strCodes a.entityName) (strCodes b.entityName))

/-- Stable insertion for the ORDER BY sort. -/
def ordInsert (x : TraversalRow) : List TraversalRow → List TraversalRow
  | [] => [x]
  | y :: ys => if rowLe y x then y :: ordInsert x ys else x :: y :: ys

/-- Stable sort realizing the ORDER BY clause. -/
def ordSort : List TraversalRow → List TraversalRow
  | [] => []
  | x :: xs => ordInsert x (ordSort xs)

/-- GraphRAGService.traverseGraph (part_007 lines 265-330): empty anchor
set short-circuits; otherwise SELECT DISTINCT rows of the CTE with
depth > 0, ORDER BY depth and name, LIMIT 50. -/
def traverseGraph (g : TGraph) (u : String) (anchors : List Nat)
    (maxDepth : Nat) : List TraversalRow :=
  if anchors.isEmpty then []
  else
    (ordSort ((allRows g u anchors maxDepth).filter
        (fun r => decide (0 < r.depth))).dedup).take 50

theorem mem_ordInsert (a x : TraversalRow) (l : List TraversalRow)
    (h : a ∈ ordInsert x l) : a = x ∨ a ∈ l := by
  induction l with
  | nil => simpa [ordInsert] using h
  | cons y ys ih =>
    unfold ordInsert at h
    by_cases hle : rowLe y x = true
    · rw [if_pos hle] at h
      rcases List.mem_cons.mp h with h1 | h2
      · exact Or.inr (List.mem_cons.mpr (Or.inl h1))
      · rcases ih h2 with h3 | h4
        · exact Or.inl h3
        · exact Or.inr (List.mem_cons.mpr (Or.inr h4))
    · rw [if_neg hle] at h
      rcases List.mem_cons.mp h with h1 | h2
      · exact Or.inl h1
      · exact Or.inr h2

theorem mem_ordSort (a : TraversalRow) (l : List TraversalRow)
    (h : a ∈ ordSort l) : a ∈ l := by
  induction l with
  | nil => simpa [ordSort] using h
  | cons x xs ih =>
    unfold ordSort at h
    rcases mem_ordInsert a x (ordSort xs) h with h1 | h2
    · simp [h1]
    · exact List.mem_cons.mpr (Or.inr (ih h2))

theorem levelRows_path_nodup (g : TGraph) (u : String) (anchors : List Nat)
    (maxDepth : Nat) :
    ∀ k : Nat, ∀ row ∈ levelRows g u anchors maxDepth k, row.path.Nodup := by
  intro k
  induction k with
  | zero =>
    intro row hrow
    unfold levelRows anchorRows at hrow
    obtain ⟨e, _, he⟩ := List.mem_map.mp hrow
    rw [← he]
    simp
  | succ k ih =>
    intro row hrow
    unfold levelRows at hrow
    obtain ⟨r, hr, hrow2⟩ := List.mem_flatMap.mp hrow
    unfold expandRow at hrow2
    by_cases hd : r.depth < maxDepth
    · rw [if_pos hd] at hrow2
      obtain ⟨rel, _, hrow3⟩ := List.mem_flatMap.mp hrow2
      obtain ⟨t, ht, hrow4⟩ := List.mem_map.mp hrow3
      have htc := (List.mem_filter.mp ht).2
      simp only [Bool.and_eq_true, Bool.not_eq_true] at htc
      have hnotmem : t.name ∉ r.path := by
        intro hmem
        have : r.path.contains t.name = true := by
          simpa [List.elem_iff] using hmem
        rw [this] at htc
        simp at htc
      have hnodup := ih r hr
      rw [← hrow4]
      show (r.path ++ [t.name]).Nodup
      rw [List.nodup_append]
      exact ⟨hnodup, by simp, by simpa using hnotmem⟩
    · rw [if_neg hd] at hrow2
      simp at hrow2

/-- A cycle A -> B -> C -> A over one tenant, used to exercise the
traversal on cyclic data. -/
def cycleGraph : TGraph :=
  { entities :=
      [ { id := 1, userId := "u", name := "A", etype := "T", isDeleted := false },
        { id := 2, userId := "u", name := "B", etype := "T", isDeleted := false },
        { id := 3, userId := "u", name := "C", etype := "T", isDeleted := false } ],
    relationships :=
      [ { userId := "u", fromEntityId := 1, toEntityId := 2, predicate := "r1",
          isDeleted := false },
        { userId := "u", fromEntityId := 2, toEntityId := 3, predicate := "r2",
          isDeleted := false },
        { userId := "u", fromEntityId := 3, toEntityId := 1, predicate := "r3",
          isDeleted := false } ] }

/-! ## Claim C3: traversal terminates and never revisits a name on a path -/

/-- C3: the traversal is a total function (it terminates on every graph,
cycles included, because each CTE iteration raises the depth and
expansion stops at `maxDepth`), a node is never expanded into a path
already carrying its name (the guard keys on the NAME), so every
path of every returned row lists each entity name at most once; on the concrete
cycle A -> B -> C -> A with graphDepth 5 the result is exactly B at
depth 1 and C at depth 2 — A is never revisited. -/
theorem traversal_cycle_safe :
    (∀ (g : TGraph) (u : String) (anchors : List Nat) (maxDepth : Nat),
      ∀ row ∈ traverseGraph g u anchors maxDepth, row.path.Nodup) ∧
    (traverseGraph cycleGraph "u" [1] 5).map (fun r => (r.entityName, r.depth))
      = [("B", 1), ("C", 2)] := by
  constructor
  · intro g u anchors maxDepth row hrow
    unfold traverseGraph at hrow
    by_cases hemp : anchors.isEmpty = true
    · rw [if_pos hemp] at hrow
      simp at hrow
    · rw [if_neg hemp] at hrow
      have h1 := List.take_subset 50 _ hrow
      have h2 := mem_ordSort _ _ h1
      have h3 := List.mem_dedup.mp h2
      have h4 := (List.mem_filter.mp h3).1
      obtain ⟨k, _, h5⟩ := List.mem_flatMap.mp h4
      exact levelRows_path_nodup g u anchors maxDepth k row h5
  · decide

/-- Witness for C3: the depth-1 row for B on the cycle has a
duplicate-free path. -/
theorem traversal_cycle_safe_witness :
    ({ entityId := 2, entityName := "B", entityType := "T", depth := 1,
       path := ["A", "B"], relationshipChain := ["r1"] } : TraversalRow)
      ∈ traverseGraph cycleGraph "u" [1] 5 ∧
    (["A", "B"] : List String).Nodup :=
  ⟨by decide,
   traversal_cycle_safe.1 cycleGraph "u" [1] 5
     { entityId := 2, entityName := "B", entityType := "T", depth := 1,
       path := ["A", "B"], relationshipChain := ["r1"] } (by decide)⟩

/-! ## Claim C7: hard cap of 50 rows, anchors excluded -/

/-- C7: for every graph, tenant, anchor set and depth, the traversal
returns at most 50 rows (the LIMIT 50 safety cap) and every returned row
has depth at least 1: the depth-0 anchor rows are filtered out. -/
theorem traversal_cap_and_anchor_exclusion (g : TGraph) (u : String)
    (anchors : List Nat) (maxDepth : Nat) :
    (traverseGraph g u anchors maxDepth).length ≤ 50 ∧
    ∀ row ∈ traverseGraph g u anchors maxDepth, 1 ≤ row.depth := by
  constructor
  · unfold traverseGraph
    by_cases hemp : anchors.isEmpty = true
    · rw [if_pos hemp]
      simp
    · rw [if_neg hemp]
      rw [List.length_take]
      exact inf_le_left
  · intro row hrow
    unfold traverseGraph at hrow
    by_cases hemp : anchors.isEmpty = true
    · rw [if_pos hemp] at hrow
      simp at hrow
    · rw [if_neg hemp] at hrow
      have h1 := List.take_subset 50 _ hrow
      have h2 := mem_ordSort _ _ h1
      have h3 := List.mem_dedup.mp h2
      have h4 := (List.mem_filter.mp h3).2
      have h5 : 0 < row.depth := by simpa using h4
      omega

/-- Witness for C7: the cycle example respects the cap and the row for B
sits at depth 1. -/
theorem traversal_cap_and_anchor_exclusion_witness :
    (traverseGraph cycleGraph "u" [1] 5).length ≤ 50 ∧
    ({ entityId := 2, entityName := "B", entityType := "T", depth := 1,
       path := ["A", "B"], relationshipChain := ["r1"] } : TraversalRow)
      ∈ traverseGraph cycleGraph "u" [1] 5 ∧
    1 ≤ ({ entityId := 2, entityName := "B", entityType := "T", depth := 1,
           path := ["A", "B"], relationshipChain := ["r1"] } : TraversalRow).depth :=
  ⟨(traversal_cap_and_anchor_exclusion cycleGraph "u" [1] 5).1,
   by decide,
   (traversal_cap_and_anchor_exclusion cycleGraph "u" [1] 5).2
     { entityId := 2, entityName := "B", entityType := "T", depth := 1,
       path := ["A", "B"], relationshipChain := ["r1"] } (by decide)⟩

/-! ## Consolidation (ConsolidationService, part_007 lines 413-877) -/

/-- Core fact tuple returned by the consolidation LLM call. -/
structure CoreFact where
  entityName : String
  entityType : String
  fact : String
  confidence : Rat
deriving DecidableEq, Repr

/-- Whether `needle` sits at the head of `hay`. -/
def leadsWith : List Char → List Char → Bool
  | [], _ => true
  | _ :: _, [] => false
  | a :: as, b :: bs => a == b && leadsWith as bs

/-- Substring containment over character lists (JS `String.includes`). -/
def charsContain (hay needle : List Char) : Bool :=
  match hay with
  | [] => needle.isEmpty
  | _ :: t => leadsWith needle hay || charsContain t needle

/-- String containment (JS `String.includes`). -/
def strIncludes (hay needle : String) : Bool :=
  charsContain hay.data needle.data

/-- Lowercased string (JS `toLowerCase`, ASCII range as in `Char.toLower`). -/
def lowerStr (s : String) : String :=
  String.mk (s.data.map Char.toLower)

/-- ConsolidationService.mergeDescriptions (lines 783-793): empty current
description is replaced; a fact already contained case-insensitively is
skipped; otherwise the fact is appended after ". " and trimmed. -/
def mergeDescriptions (current newFact : String) : String :=
  if current = "" then newFact
  else if strIncludes (lowerStr current) (lowerStr newFact) then current
  else (current ++ ". " ++ newFact).trim

/-- prisma findFirst for the (userId, entityName, entityType) of the fact,
skipping soft-deleted rows. -/
def findEntityForFact (uid : String) (t : List EntityRow) (f : CoreFact) :
    Option EntityRow :=
  t.find? (fun r =>
    r.userId == uid && r.name == f.entityName && r.etype == f.entityType && !r.isDeleted)

/-- One iteration of applyFactsToEntities (lines 728-775): if the entity
exists, merge the fact into its description and raise importance to
max(current, confidence * 0.8); otherwise drop the fact. -/
def applyOneFact (uid : String) (t : List EntityRow) (f : CoreFact) (now : Nat) :
    List EntityRow :=
  match findEntityForFact uid t f with
  | some e =>
    t.map (fun q =>
      if q.id == e.id then
        { q with description := some (mergeDescriptions (e.description.getD "") f.fact),
                 importance := max e.importance (f.confidence * mkRat 4 5),
                 lastAccessedAt := now, updatedAt := now }
      else q)
  | none => t

/-- ConsolidationService.applyFactsToEntities (lines 722-778). -/
def applyFactsToEntities (uid : String) (t : List EntityRow)
    (facts : List CoreFact) (now : Nat) : List EntityRow :=
  facts.foldl (fun acc f => applyOneFact uid acc f now) t

/-! ## Lemmas for consolidation monotonicity -/

theorem applyOneFact_length (uid : String) (t : List EntityRow) (f : CoreFact)
    (now : Nat) : (applyOneFact uid t f now).length = t.length := by
  unfold applyOneFact
  rcases findEntityForFact uid t f with _ | e <;> simp

theorem applyOneFact_ids (uid : String) (t : List EntityRow) (f : CoreFact)
    (now : Nat) :
    (applyOneFact uid t f now).map (fun r => r.id) = t.map (fun r => r.id) := by
  unfold applyOneFact
  rcases findEntityForFact uid t f with _ | e
  · rfl
  · rw [List.map_map]
    apply List.map_congr_left
    intro q _
    by_cases hq : (q.id == e.id) = true
    · simp only [Function.comp, if_pos hq]
    · simp only [Function.comp, if_neg (by simp [hq] : ¬(q.id == e.id) = true)]

theorem applyOneFact_mono (uid : String) (t : List EntityRow) (f : CoreFact)
    (now : Nat) (hnd : (t.map (fun r => r.id)).Nodup) (i : Nat)
    (a b : EntityRow) (ha : (applyOneFact uid t f now)[i]? = some a)
    (hb : t[i]? = some b) :
    a.id = b.id ∧ b.importance ≤ a.importance := by
  rcases hf : findEntityForFact uid t f with _ | e
  · have happ : applyOneFact uid t f now = t := by
      unfold applyOneFact
      rw [hf]
    rw [happ, hb] at ha
    have hab : a = b := (Option.some.inj ha).symm
    rw [hab]
    exact ⟨rfl, le_refl _⟩
  · have happ : applyOneFact uid t f now = t.map (fun q =>
        if q.id == e.id then
          { q with description := some (mergeDescriptions (e.description.getD "") f.fact),
                   importance := max e.importance (f.confidence * mkRat 4 5),
                   lastAccessedAt := now, updatedAt := now }
        else q) := by
      unfold applyOneFact
      rw [hf]
    have hmapped : (t.map (fun q =>
        if q.id == e.id then
          { q with description := some (mergeDescriptions (e.description.getD "") f.fact),
                   importance := max e.importance (f.confidence * mkRat 4 5),
                   lastAccessedAt := now, updatedAt := now }
        else q))[i]? = some (if b.id == e.id then
          { b with description := some (mergeDescriptions (e.description.getD "") f.fact),
                   importance := max e.importance (f.confidence * mkRat 4 5),
                   lastAccessedAt := now, updatedAt := now }
        else b) := by
      rw [List.getElem?_map, hb]
      rfl
    rw [happ, hmapped] at ha
    have hab : a = (if b.id == e.id then
        { b with description := some (mergeDescriptions (e.description.getD "") f.fact),
                 importance := max e.importance (f.confidence * mkRat 4 5),
                 lastAccessedAt := now, updatedAt := now }
      else b) := (Option.some.inj ha).symm
    by_cases hq : (b.id == e.id) = true
    · have hbe : b = e := by
        have hemem : e ∈ t := by
          unfold findEntityForFact at hf
          exact List.mem_of_find?_eq_some hf
        have hbmem : b ∈ t := by
          rcases List.getElem?_eq_some_iff.mp hb with ⟨hl, hEq⟩
          rw [← hEq]
          exact List.getElem_mem hl
        exact List.inj_on_of_nodup_map hnd hbmem hemem (by simpa using hq)
      rw [if_pos hq] at hab
      rw [hab]
      refine ⟨rfl, ?_⟩
      show b.importance ≤ max e.importance (f.confidence * mkRat 4 5)
      rw [hbe]
      exact le_max_left _ _
    · rw [if_neg (by simp [hq] : ¬(b.id == e.id) = true)] at hab
      rw [hab]
      exact ⟨rfl, le_refl _⟩

theorem applyFacts_mono (uid : String) (facts : List CoreFact) (now : Nat) :
    ∀ (t : List EntityRow), (t.map (fun r => r.id)).Nodup →
    (applyFactsToEntities uid t facts now).length = t.length ∧
    ∀ (i : Nat) (a b : EntityRow),
      (applyFactsToEntities uid t facts now)[i]? = some a → t[i]? = some b →
      a.id = b.id ∧ b.importance ≤ a.importance := by
  induction facts with
  | nil =>
    intro t _
    refine ⟨rfl, fun i a b ha hb => ?_⟩
    have h0 : applyFactsToEntities uid t [] now = t := rfl
    rw [h0, hb] at ha
    have hab : a = b := (Option.some.inj ha).symm
    rw [hab]
    exact ⟨rfl, le_refl _⟩
  | cons f fs ih =>
    intro t hnd
    have hstep : applyFactsToEntities uid t (f :: fs) now
        = applyFactsToEntities uid (applyOneFact uid t f now) fs now := by
      unfold applyFactsToEntities
      rw [List.foldl_cons]
    have hnd1 : ((applyOneFact uid t f now).map (fun r => r.id)).Nodup := by
      rw [applyOneFact_ids]
      exact hnd
    obtain ⟨ihlen, ihmono⟩ := ih (applyOneFact uid t f now) hnd1
    constructor
    · rw [hstep, ihlen, applyOneFact_length]
    · intro i a b ha hb
      have hlt : i < t.length := by
        rcases List.getElem?_eq_some_iff.mp hb with ⟨h, _⟩
        exact h
      have hlt1 : i < (applyOneFact uid t f now).length := by
        rw [applyOneFact_length]
        exact hlt
      have hc : (applyOneFact uid t f now)[i]? = some ((applyOneFact uid t f now)[i]) :=
        List.getElem?_eq_getElem hlt1
      rw [hstep] at ha
      obtain ⟨hid2, hle2⟩ := ihmono i a _ ha hc
      obtain ⟨hid1, hle1⟩ := applyOneFact_mono uid t f now hnd i _ b hc hb
      exact ⟨hid2.trans hid1, hle1.trans hle2⟩

theorem mergeDescriptions_skip (current fact : String)
    (h : strIncludes (lowerStr current) (lowerStr fact) = true) :
    mergeDescriptions current fact = current := by
  unfold mergeDescriptions
  by_cases hc : current = ""
  · rw [if_pos hc]
    subst hc
    have h2 : (fact.data.map Char.toLower).isEmpty = true := by
      simpa [strIncludes, lowerStr, charsContain] using h
    have h3 : fact.data = [] := by
      have h4 : fact.data.map Char.toLower = [] := by
        simpa using h2
      exact List.map_eq_nil_iff.mp h4
    cases fact with
    | mk data =>
      simp only at h3
      rw [h3]
  · rw [if_neg hc, if_pos h]

/-! ## Claim C8: consolidation never lowers importance; no duplicate facts -/

/-- C8: a consolidation run maps each Entity row to a row with the same
id whose importance never decreases; a matched entity is updated with
importance = max(current, confidence * 0.8) (which is at least the
current importance); and `mergeDescriptions` returns the description
unchanged when the fact is already contained in it case-insensitively,
so a fact is appended only when it is not already a substring. -/
theorem consolidation_monotone_and_dedup :
    (∀ (uid : String) (t : List EntityRow) (facts : List CoreFact) (now : Nat),
      (t.map (fun r => r.id)).Nodup →
      (applyFactsToEntities uid t facts now).length = t.length ∧
      ∀ (i : Nat) (a b : EntityRow),
        (applyFactsToEntities uid t facts now)[i]? = some a → t[i]? = some b →
        a.id = b.id ∧ b.importance ≤ a.importance) ∧
    (∀ current fact : String, strIncludes (lowerStr current) (lowerStr fact) = true →
      mergeDescriptions current fact = current) ∧
    (∀ (uid : String) (t : List EntityRow) (f : CoreFact) (now : Nat) (e : EntityRow),
      findEntityForFact uid t f = some e →
      applyOneFact uid t f now = t.map (fun q =>
        if q.id == e.id then
          { q with description := some (mergeDescriptions (e.description.getD "") f.fact),
                   importance := max e.importance (f.confidence * mkRat 4 5),
                   lastAccessedAt := now, updatedAt := now }
        else q) ∧
      e.importance ≤ max e.importance (f.confidence * mkRat 4 5)) := by
  refine ⟨fun uid t facts now hnd => applyFacts_mono uid facts now t hnd,
          fun current fact h => mergeDescriptions_skip current fact h,
          fun uid t f now e hf => ⟨?_, le_max_left _ _⟩⟩
  unfold applyOneFact
  rw [hf]

/-- Witness for C8: one entity, one matching fact; the table keeps its
shape and the theorem applies. -/
theorem consolidation_monotone_and_dedup_witness :
    (([{ id := 1, userId := "u", name := "John", etype := "Person",
         description := some "CEO", embedding := [], importance := 1, confidence := 1,
         isDeleted := false, createdAt := 0, updatedAt := 0, lastAccessedAt := 0 }]
        : List EntityRow).map (fun r => r.id)).Nodup ∧
    (applyFactsToEntities "u"
        [{ id := 1, userId := "u", name := "John", etype := "Person",
           description := some "CEO", embedding := [], importance := 1, confidence := 1,
           isDeleted := false, createdAt := 0, updatedAt := 0, lastAccessedAt := 0 }]
        [{ entityName := "John", entityType := "Person", fact := "Founded Acme",
           confidence := 1 }] 5).length
      = ([{ id := 1, userId := "u", name := "John", etype := "Person",
            description := some "CEO", embedding := [], importance := 1, confidence := 1,
            isDeleted := false, createdAt := 0, updatedAt := 0, lastAccessedAt := 0 }]
          : List EntityRow).length :=
  ⟨by decide,
   (consolidation_monotone_and_dedup.1 "u"
      [{ id := 1, userId := "u", name := "John", etype := "Person",
         description := some "CEO", embedding := [], importance := 1, confidence := 1,
         isDeleted := false, createdAt := 0, updatedAt := 0, lastAccessedAt := 0 }]
      [{ entityName := "John", entityType := "Person", fact := "Founded Acme",
         confidence := 1 }] 5 (by decide)).1⟩
